import Mathlib

/-!
Verification development for the tradeengin matching core.

This file shallowly embeds the Go sources of the repository:
  app/pkg/types/types.go                     (Order, Trade, MatchResult, snapshot types)
  app/matching/internal/orderbook/skip_tree.go (SkipTree as a sorted price ladder, PriceLevel)
  app/matching/internal/orderbook/hybird.go   (HybridOrderBook: Match, CancelOrder, snapshot, best prices)
  app/pkg/lockfree/ringbuffer.go              (capacity rounding, sequential push/pop counters)
  app/matching/internal/engin (engine)        (MatchingEngine.ProcessOrder, CancelOrder)

Modelling conventions:
  - Go float64 prices are modelled as Int.  The Go comparator uses an absolute
    epsilon of 1e-10; on the integer-valued prices manipulated here (and in all
    concrete scenarios of the spec) that comparator coincides with exact integer
    comparison, which is what the model uses.
  - Go int64 quantities are modelled as Int (no operation in the modelled paths
    approaches the 2^63 overflow boundary).
  - The skip list (SkipTree) maintains a strictly sorted sequence of price
    levels; it is modelled as the sorted list of levels it represents,
    descending for the buy ladder (reverse = true) and ascending for the sell
    ladder (reverse = false).  MinPriceNode/MaxPriceNode of the best side is
    the head of the list, exactly as header.forward[0] in the source.
  - sync.Map / Go maps are modelled as association lists with single bindings
    (store replaces, delete removes); Go map iteration order never matters in
    the modelled code paths.
  - generateTradeID() returns time.Now().UnixNano(); wall-clock values are
    abstracted by a monotone counter tradeIDGen threaded through the book.
    All Timestamp fields (also time.Now() based) are abstracted as 0; no
    modelled claim depends on them.
  - The per-price FIFO (seqMaps) is a lockfree.RingBuffer created with
    NewRingBuffer(1000), whose real capacity is the rounded-up power of two
    1024; pushes into a full ring are silently dropped by addOrderToBook
    (the Push return value is ignored there), which seqPush reproduces.
  - The matching loops of matchBuyOrder/matchSellOrder run while the taker has
    remaining quantity; every executed iteration strictly decreases the
    remaining quantity by at least 1, so running the loop with fuel
    remainingQty.toNat computes exactly the Go loop (the fuel never runs out
    before a loop guard fails).
-/

namespace Tradeengin

/-- Side constant: types.SideBuyValue = 1 (Go int8). -/
def sideBuy : Int := 1

/-- Side constant: types.SideSellValue = 2 (Go int8). -/
def sideSell : Int := 2

/-- Order-type constant: types.TypeLimitValue = 1 (Go int8). -/
def typeLimit : Int := 1

/-- Order-type constant: types.TypeMarketValue = 2 (Go int8). -/
def typeMarket : Int := 2

/-- types.Order (the Go field `Type` is rendered `otype`; padding omitted). -/
structure Order where
  id : Nat
  symbol : String
  price : Int
  quantity : Int
  side : Int
  otype : Int
  timestamp : Int
  clientID : String
  version : Nat
  deriving DecidableEq, Repr

/-- types.Trade.  `takerSide` is never assigned by the order book
(executeTrade leaves the pool zero value), modelled as 0. -/
structure Trade where
  tradeID : Nat
  takerOrderID : Nat
  makerOrderID : Nat
  symbol : String
  price : Int
  quantity : Int
  timestamp : Int
  takerSide : Int
  deriving DecidableEq, Repr

/-- types.MatchResult. -/
structure MatchResult where
  trades : List Trade
  order : Order
  timestamp : Int
  deriving DecidableEq, Repr

/-- types.MatchResult.TotalFilledQty. -/
def MatchResult.TotalFilledQty (m : MatchResult) : Int :=
  (m.trades.map Trade.quantity).sum

/-- types.PriceLevel: one aggregated row of a book snapshot. -/
structure SnapshotLevel where
  price : Int
  quantity : Int
  count : Nat
  deriving DecidableEq, Repr

/-- types.OrderBook: a depth snapshot of one symbol's book. -/
structure SnapshotBook where
  symbol : String
  bids : List SnapshotLevel
  asks : List SnapshotLevel
  time : Int
  deriving DecidableEq, Repr

/-- orderbook.PriceLevel: price, aggregate quantity and the Orders slice. -/
structure PriceLevel where
  price : Int
  totalQty : Int
  orders : List Order
  deriving DecidableEq, Repr

/-- SkipTree.compare parameterized by the direction flag (reverse = descending);
exact integer comparison stands in for the float comparison with epsilon 1e-10,
with which it agrees on integer-valued prices. -/
def levCompare (reverse : Bool) (a b : Int) : Ordering :=
  if a > b then (if reverse then .lt else .gt)
  else if a < b then (if reverse then .gt else .lt)
  else .eq

/-- SkipTree.Insert on the sorted level list: walk past keys comparing `lt`,
replace on `eq`, insert before the first `gt`. -/
def insertLevel (reverse : Bool) (p : Int) (lv : PriceLevel) :
    List PriceLevel → List PriceLevel
  | [] => [lv]
  | l :: ls =>
    match levCompare reverse l.price p with
    | .lt => l :: insertLevel reverse p lv ls
    | .eq => lv :: ls
    | .gt => lv :: l :: ls

/-- SkipTree.Remove on the sorted level list (no-op when the key is absent). -/
def removeLevel (reverse : Bool) (p : Int) :
    List PriceLevel → List PriceLevel
  | [] => []
  | l :: ls =>
    match levCompare reverse l.price p with
    | .lt => l :: removeLevel reverse p ls
    | .eq => ls
    | .gt => l :: ls

/-- SkipTree.Get on the sorted level list. -/
def getLevel (reverse : Bool) (p : Int) :
    List PriceLevel → Option PriceLevel
  | [] => none
  | l :: ls =>
    match levCompare reverse l.price p with
    | .lt => getLevel reverse p ls
    | .eq => some l
    | .gt => none

/-- SkipTree.GetTopLevels: the first `limit` levels in ladder order. -/
def getTopLevelsTree (limit : Nat) (ls : List PriceLevel) : List PriceLevel :=
  ls.take limit

/-- SkipTree.GetTotalQuantity: sum of TotalQty over the ladder. -/
def GetTotalQuantity (ls : List PriceLevel) : Int :=
  (ls.map PriceLevel.totalQty).sum

/-- Association-list lookup with single bindings (Go map / sync.Map Load). -/
def alistLookup [BEq κ] : List (κ × α) → κ → Option α
  | [], _ => none
  | (k, v) :: rest, key => if k == key then some v else alistLookup rest key

/-- Association-list store (Go map assignment / sync.Map Store): replaces the
existing binding or appends a fresh one. -/
def alistStore [BEq κ] : List (κ × α) → κ → α → List (κ × α)
  | [], key, v => [(key, v)]
  | (k, w) :: rest, key, v =>
    if k == key then (key, v) :: rest else (k, w) :: alistStore rest key v

/-- Association-list delete (Go delete / sync.Map Delete). -/
def alistErase [BEq κ] : List (κ × α) → κ → List (κ × α)
  | [], _ => []
  | (k, w) :: rest, key => if k == key then rest else (k, w) :: alistErase rest key

/-- Capacity of the per-price FIFO: NewRingBuffer(1000) rounds up to 1024. -/
def seqRingCapacity : Nat := 1024

/-- RingBuffer.Push as used by addOrderToBook (the returned Bool is ignored
there, so a push into a full ring silently drops the order handle). -/
def seqPush (q : List Order) (o : Order) : List Order :=
  if q.length < seqRingCapacity then q ++ [o] else q

/-- HybridOrderBook: symbol, the two ladders, the order index, the per-price
FIFO queues, the version counter, and the trade-ID generator abstraction. -/
structure HybridOrderBook where
  symbol : String
  buys : List PriceLevel
  sells : List PriceLevel
  orderMap : List (Nat × Order)
  seqMaps : List (Int × List Order)
  version : Nat
  tradeIDGen : Nat
  deriving DecidableEq, Repr

/-- orderbook.NewHybridOrderBook. -/
def NewHybridOrderBook (symbol : String) : HybridOrderBook :=
  { symbol := symbol, buys := [], sells := [], orderMap := [], seqMaps := [],
    version := 0, tradeIDGen := 0 }

/-- HybridOrderBook.getEarliestOrderFromLevel: pop the per-price FIFO
(the Pop mutates the stored ring, so the tail is written back). -/
def getEarliestOrderFromLevel (h : HybridOrderBook) (price : Int) :
    Option Order × HybridOrderBook :=
  match alistLookup h.seqMaps price with
  | none => (none, h)
  | some [] => (none, h)
  | some (o :: rest) => (some o, { h with seqMaps := alistStore h.seqMaps price rest })

/-- HybridOrderBook.executeTrade: pop the earliest same-price order; if the
FIFO misses, fabricate a synthetic maker whose ID comes from generateTradeID. -/
def executeTrade (h : HybridOrderBook) (taker : Order) (makerLevel : PriceLevel)
    (qty : Int) (price : Int) : HybridOrderBook × Trade :=
  let popped := getEarliestOrderFromLevel h makerLevel.price
  match popped.1 with
  | some makerOrder =>
    ({ popped.2 with tradeIDGen := popped.2.tradeIDGen + 1 },
     { tradeID := popped.2.tradeIDGen, takerOrderID := taker.id,
       makerOrderID := makerOrder.id, symbol := h.symbol, price := price,
       quantity := qty, timestamp := 0, takerSide := 0 })
  | none =>
    let makerOrder : Order :=
      { id := popped.2.tradeIDGen, symbol := h.symbol, price := price,
        quantity := qty, side := 1 - taker.side, otype := 0, timestamp := 0,
        clientID := "", version := 0 }
    ({ popped.2 with tradeIDGen := popped.2.tradeIDGen + 2 },
     { tradeID := popped.2.tradeIDGen + 1, takerOrderID := taker.id,
       makerOrderID := makerOrder.id, symbol := h.symbol, price := price,
       quantity := qty, timestamp := 0, takerSide := 0 })

/-- HybridOrderBook.updatePriceLevel: add the delta and clamp at zero. -/
def updatePriceLevel (level : PriceLevel) (delta : Int) : PriceLevel :=
  let t := level.totalQty + delta
  { level with totalQty := if t < 0 then 0 else t }

/-- Level bookkeeping after one matchBuyOrder iteration (hybird.go lines
117-127): the best ask's TotalQty was already decremented in place by
matchedQty; remove the level (and its FIFO) when it hit zero, otherwise call
updatePriceLevel with -matchedQty a second time. -/
def matchStepBookBuy (h1 : HybridOrderBook) (bestAsk : PriceLevel)
    (rest : List PriceLevel) (matchedQty : Int) : HybridOrderBook :=
  let newTotal := bestAsk.totalQty - matchedQty
  if newTotal = 0 then
    { h1 with
      sells := removeLevel false bestAsk.price
        ({ bestAsk with totalQty := newTotal } :: rest),
      seqMaps := alistErase h1.seqMaps bestAsk.price }
  else
    { h1 with
      sells := updatePriceLevel { bestAsk with totalQty := newTotal }
        (-matchedQty) :: rest }

/-- Level bookkeeping after one matchSellOrder iteration (hybird.go lines
162-172), mirror image on the buy ladder. -/
def matchStepBookSell (h1 : HybridOrderBook) (bestBid : PriceLevel)
    (rest : List PriceLevel) (matchedQty : Int) : HybridOrderBook :=
  let newTotal := bestBid.totalQty - matchedQty
  if newTotal = 0 then
    { h1 with
      buys := removeLevel true bestBid.price
        ({ bestBid with totalQty := newTotal } :: rest),
      seqMaps := alistErase h1.seqMaps bestBid.price }
  else
    { h1 with
      buys := updatePriceLevel { bestBid with totalQty := newTotal }
        (-matchedQty) :: rest }

/-- Loop body of HybridOrderBook.matchBuyOrder, run on fuel (see header note:
fuel `remainingQty.toNat` suffices because each executed iteration consumes at
least 1 of the remaining quantity).  Returns (trades, remainingQty, book). -/
def matchBuyLoop (fuel : Nat) (h : HybridOrderBook) (order : Order)
    (remainingQty : Int) : List Trade × Int × HybridOrderBook :=
  match fuel with
  | 0 => ([], remainingQty, h)
  | fuel + 1 =>
    match h.sells with
    | [] => ([], remainingQty, h)
    | bestAsk :: rest =>
      if remainingQty ≤ 0 then ([], remainingQty, h)
      else if order.otype = typeLimit ∧ order.price < bestAsk.price then
        ([], remainingQty, h)
      else
        let matchedQty := min remainingQty bestAsk.totalQty
        if matchedQty ≤ 0 then ([], remainingQty, h)
        else
          let et := executeTrade h order bestAsk matchedQty bestAsk.price
          let r := matchBuyLoop fuel (matchStepBookBuy et.1 bestAsk rest matchedQty)
            order (remainingQty - matchedQty)
          (et.2 :: r.1, r.2.1, r.2.2)

/-- HybridOrderBook.matchBuyOrder. -/
def matchBuyOrder (h : HybridOrderBook) (order : Order) (remainingQty : Int) :
    List Trade × Int × HybridOrderBook :=
  matchBuyLoop remainingQty.toNat h order remainingQty

/-- Loop body of HybridOrderBook.matchSellOrder (mirror image over the buy
ladder). -/
def matchSellLoop (fuel : Nat) (h : HybridOrderBook) (order : Order)
    (remainingQty : Int) : List Trade × Int × HybridOrderBook :=
  match fuel with
  | 0 => ([], remainingQty, h)
  | fuel + 1 =>
    match h.buys with
    | [] => ([], remainingQty, h)
    | bestBid :: rest =>
      if remainingQty ≤ 0 then ([], remainingQty, h)
      else if order.otype = typeLimit ∧ order.price > bestBid.price then
        ([], remainingQty, h)
      else
        let matchedQty := min remainingQty bestBid.totalQty
        if matchedQty ≤ 0 then ([], remainingQty, h)
        else
          let et := executeTrade h order bestBid matchedQty bestBid.price
          let r := matchSellLoop fuel (matchStepBookSell et.1 bestBid rest matchedQty)
            order (remainingQty - matchedQty)
          (et.2 :: r.1, r.2.1, r.2.2)

/-- HybridOrderBook.matchSellOrder. -/
def matchSellOrder (h : HybridOrderBook) (order : Order) (remainingQty : Int) :
    List Trade × Int × HybridOrderBook :=
  matchSellLoop remainingQty.toNat h order remainingQty

/-- HybridOrderBook.addOrderToBook: find or create the level at the order's
price, append the order and add `qty` to the aggregate, index the order, and
push it onto the per-price FIFO (created on first use). -/
def addOrderToBook (h : HybridOrderBook) (order : Order) (qty : Int) :
    HybridOrderBook :=
  let reverse := order.side = sideBuy
  let tree := if order.side = sideBuy then h.buys else h.sells
  let level0 := (getLevel reverse order.price tree).getD
    { price := order.price, totalQty := 0, orders := [] }
  let level1 := { level0 with
                  orders := level0.orders ++ [order],
                  totalQty := level0.totalQty + qty }
  let tree1 := insertLevel reverse order.price level1 tree
  let queue := (alistLookup h.seqMaps order.price).getD []
  let seq1 := alistStore h.seqMaps order.price (seqPush queue order)
  let om1 := alistStore h.orderMap order.id order
  if order.side = sideBuy then
    { h with buys := tree1, orderMap := om1, seqMaps := seq1 }
  else
    { h with sells := tree1, orderMap := om1, seqMaps := seq1 }

/-- HybridOrderBook.Match: run the side-appropriate matching loop, rest a
limit taker's residual, bump the version, and return the MatchResult whose
Order field is the incoming order (its Quantity field is never updated). -/
def HybridOrderBook.Match (h : HybridOrderBook) (order : Order) :
    MatchResult × HybridOrderBook :=
  let mr :=
    if order.side = sideBuy then matchBuyOrder h order order.quantity
    else matchSellOrder h order order.quantity
  let h1 := mr.2.2
  let h2 :=
    if 0 < mr.2.1 ∧ order.otype = typeLimit then addOrderToBook h1 order mr.2.1
    else h1
  ({ trades := mr.1, order := order, timestamp := 0 },
   { h2 with version := h2.version + 1 })

/-- Remove the first order with the given ID from a level's Orders slice
(the in-place `append(level.Orders[:i], level.Orders[i+1:]...)`). -/
def removeOrderByID : List Order → Nat → List Order
  | [], _ => []
  | o :: os, i => if o.id = i then os else o :: removeOrderByID os i

/-- HybridOrderBook.CancelOrder: look the order up in the index, find its
level on its side's ladder, remove it from the Orders slice, subtract the
order's (original) Quantity from the aggregate, drop the level when the
aggregate hits zero, and unindex the order. -/
def HybridOrderBook.CancelOrder (h : HybridOrderBook) (orderID : Nat) :
    Bool × HybridOrderBook :=
  match alistLookup h.orderMap orderID with
  | none => (false, h)
  | some order =>
    let reverse := order.side = sideBuy
    let tree := if order.side = sideBuy then h.buys else h.sells
    match getLevel reverse order.price tree with
    | none => (false, h)
    | some level =>
      if level.orders.any (fun o => o.id = orderID) then
        let level1 := { level with
                        orders := removeOrderByID level.orders orderID,
                        totalQty := level.totalQty - order.quantity }
        let emptied := level1.totalQty = 0
        let tree1 :=
          if emptied then removeLevel reverse order.price tree
          else insertLevel reverse order.price level1 tree
        let seq1 := if emptied then alistErase h.seqMaps order.price else h.seqMaps
        let om1 := alistErase h.orderMap orderID
        if order.side = sideBuy then
          (true, { h with
                   buys := tree1, orderMap := om1, seqMaps := seq1,
                   version := h.version + 1 })
        else
          (true, { h with
                   sells := tree1, orderMap := om1, seqMaps := seq1,
                   version := h.version + 1 })
      else (false, h)

/-- HybridOrderBook.getTopLevels: project ladder levels to snapshot rows. -/
def getTopLevels (tree : List PriceLevel) (depth : Nat) : List SnapshotLevel :=
  (getTopLevelsTree depth tree).map fun level =>
    { price := level.price, quantity := level.totalQty, count := level.orders.length }

/-- HybridOrderBook.GetSnapshot. -/
def GetSnapshot (h : HybridOrderBook) (depth : Nat) : SnapshotBook :=
  { symbol := h.symbol, bids := getTopLevels h.buys depth,
    asks := getTopLevels h.sells depth, time := 0 }

/-- HybridOrderBook.GetBestBid: (0, 0) on an empty buy ladder, else the price
and aggregate quantity of the best (head) bid level. -/
def GetBestBid (h : HybridOrderBook) : Int × Int :=
  match h.buys with
  | [] => (0, 0)
  | bestBid :: _ => (bestBid.price, bestBid.totalQty)

/-- HybridOrderBook.GetBestAsk. -/
def GetBestAsk (h : HybridOrderBook) : Int × Int :=
  match h.sells with
  | [] => (0, 0)
  | bestAsk :: _ => (bestAsk.price, bestAsk.totalQty)

/-- HybridOrderBook.GetSpread: 0 when either best price is 0, else ask - bid. -/
def GetSpread (h : HybridOrderBook) : Int :=
  let bid := (GetBestBid h).1
  let ask := (GetBestAsk h).1
  if bid = 0 ∨ ask = 0 then 0 else ask - bid

/-- lockfree.nextPowerOfTwo with Go uint64 semantics: the decrement and the
final increment wrap modulo 2^64; the six shift-or steps stay below 2^64. -/
def nextPowerOfTwo (n : Nat) : Nat :=
  let n1 := (n + (2 ^ 64 - 1)) % 2 ^ 64
  let n2 := n1 ||| (n1 >>> 1)
  let n3 := n2 ||| (n2 >>> 2)
  let n4 := n3 ||| (n3 >>> 4)
  let n5 := n4 ||| (n4 >>> 8)
  let n6 := n5 ||| (n5 >>> 16)
  let n7 := n6 ||| (n6 >>> 32)
  (n7 + 1) % 2 ^ 64

/-- Capacity chosen by lockfree.NewRingBuffer: `size` itself when
`size & (size-1) == 0` (uint64 arithmetic), else nextPowerOfTwo(size). -/
def newRingBufferCapacity (size : Nat) : Nat :=
  if size &&& ((size + (2 ^ 64 - 1)) % 2 ^ 64) ≠ 0 then nextPowerOfTwo size
  else size

/-- Sequential-interleaving state of a lockfree.RingBuffer: the monotone head
(next write index) and tail (next read index) counters plus the queued item
handles; `head - tail` is the number of items currently held. -/
structure RingBuffer where
  head : Nat
  tail : Nat
  capacity : Nat
  items : List Order
  deriving DecidableEq, Repr

/-- lockfree.NewRingBuffer (head = tail = 0, empty). -/
def NewRingBuffer (size : Nat) : RingBuffer :=
  { head := 0, tail := 0, capacity := newRingBufferCapacity size, items := [] }

/-- RingBuffer.Push, sequential projection: fails exactly on
`head - tail >= capacity`, else reserves the head slot and stores the item. -/
def RingBuffer.Push (q : RingBuffer) (o : Order) : Bool × RingBuffer :=
  if q.capacity ≤ q.head - q.tail then (false, q)
  else (true, { q with head := q.head + 1, items := q.items ++ [o] })

/-- RingBuffer.Pop, sequential projection: empty when `tail >= head`. -/
def RingBuffer.Pop (q : RingBuffer) : Option Order × RingBuffer :=
  if q.head ≤ q.tail then (none, q)
  else
    match q.items with
    | [] => (none, q)
    | o :: rest => (some o, { q with tail := q.tail + 1, items := rest })

/-- Engine error values of app/matching/internal/engin. -/
inductive EngineError where
  | symbolNotFound
  | queueFull
  | orderNotFound
  | duplicateOrder
  deriving DecidableEq, Repr

/-- engine.OrderStatus (0 pending, 1 partly filled, 2 filled, 3 cancelled). -/
inductive OrderStatus where
  | pending
  | partFilled
  | filled
  | cancelled
  deriving DecidableEq, Repr

/-- engine.OrderState. -/
structure OrderState where
  orderID : Nat
  symbol : String
  status : OrderStatus
  filledQuantity : Int
  originalQty : Int
  createTime : Int
  deriving DecidableEq, Repr

/-- Ingress ring capacity: NewRingBuffer(65536) (already a power of two). -/
def ingressRingCapacity : Nat := 65536

/-- engine.MatchingEngine: the per-symbol books and ingress queues, the
order-state table, and the idempotency set `processed`.  Ingress queues carry
their orders as lists bounded by ingressRingCapacity. -/
structure MatchingEngine where
  orderBooks : List (String × HybridOrderBook)
  inputQueues : List (String × List Order)
  orderStates : List (Nat × OrderState)
  processed : List Nat
  deriving DecidableEq, Repr

/-- Build an engine over a symbol list the way NewMatchingEngine does
(a fresh book and an empty ingress queue per symbol). -/
def NewMatchingEngine (symbols : List String) : MatchingEngine :=
  { orderBooks := symbols.map fun s => (s, NewHybridOrderBook s),
    inputQueues := symbols.map fun s => (s, []),
    orderStates := [], processed := [] }

/-- MatchingEngine.ProcessOrder: test-and-set on `processed`, queue lookup,
initial OrderState store, push into the (bounded) ingress queue, rolling the
idempotency mark and state back on SymbolNotFound or QueueFull, and on
success return the stub MatchResult {Order, Timestamp}. -/
def MatchingEngine.ProcessOrder (e : MatchingEngine) (order : Order) :
    Except EngineError MatchResult × MatchingEngine :=
  if e.processed.contains order.id then (.error .duplicateOrder, e)
  else
    let e1 := { e with processed := order.id :: e.processed }
    match alistLookup e1.inputQueues order.symbol with
    | none => (.error .symbolNotFound, { e1 with processed := e1.processed.erase order.id })
    | some queue =>
      let st : OrderState :=
        { orderID := order.id, symbol := order.symbol, status := .pending,
          filledQuantity := 0, originalQty := order.quantity,
          createTime := order.timestamp }
      let e2 := { e1 with orderStates := alistStore e1.orderStates order.id st }
      if ingressRingCapacity ≤ queue.length then
        (.error .queueFull,
         { e2 with
           processed := e2.processed.erase order.id,
           orderStates := alistErase e2.orderStates order.id })
      else
        (.ok { trades := [], order := order, timestamp := 0 },
         { e2 with inputQueues := alistStore e2.inputQueues order.symbol (queue ++ [order]) })

/-- MatchingEngine.CancelOrder: delegate to the book's CancelOrder and on
success flip the tracked OrderState to cancelled. -/
def MatchingEngine.CancelOrder (e : MatchingEngine) (orderID : Nat)
    (symbol : String) : (Bool × Option EngineError) × MatchingEngine :=
  match alistLookup e.orderBooks symbol with
  | none => ((false, some .symbolNotFound), e)
  | some ob =>
    let res := HybridOrderBook.CancelOrder ob orderID
    if res.1 then
      let states :=
        match alistLookup e.orderStates orderID with
        | some st => alistStore e.orderStates orderID { st with status := .cancelled }
        | none => e.orderStates
      ((true, none),
       { e with orderBooks := alistStore e.orderBooks symbol res.2,
                orderStates := states })
    else ((false, some .orderNotFound),
          { e with orderBooks := alistStore e.orderBooks symbol res.2 })

/-- MatchingEngine.GetOrderState. -/
def MatchingEngine.GetOrderState (e : MatchingEngine) (orderID : Nat) :
    Option OrderState :=
  alistLookup e.orderStates orderID

/-- A natural number that is an exact power of two. -/
def IsPowerOfTwo (n : Nat) : Prop := ∃ k, n = 2 ^ k

/-- Scenario order: `{id=1, BTCUSDT, buy, limit, price=100, qty=10}`. -/
def oBuy1 : Order :=
  { id := 1, symbol := "BTCUSDT", price := 100, quantity := 10, side := 1,
    otype := 1, timestamp := 0, clientID := "", version := 0 }

/-- Scenario order: `{id=2, BTCUSDT, sell, limit, price=100, qty=4}`. -/
def oSell2 : Order :=
  { id := 2, symbol := "BTCUSDT", price := 100, quantity := 4, side := 2,
    otype := 1, timestamp := 0, clientID := "", version := 0 }

/-- Scenario order: `{id=2, BTCUSDT, sell, limit, price=100, qty=5}`. -/
def oSell2half : Order :=
  { id := 2, symbol := "BTCUSDT", price := 100, quantity := 5, side := 2,
    otype := 1, timestamp := 0, clientID := "", version := 0 }

/-- Scenario order: `{id=3, BTC, buy, limit, price=100, qty=5}`. -/
def oBuy3 : Order :=
  { id := 3, symbol := "BTC", price := 100, quantity := 5, side := 1,
    otype := 1, timestamp := 0, clientID := "", version := 0 }

/-- Scenario order: `{id=4, BTC, buy, limit, price=100, qty=5}`. -/
def oBuy4 : Order :=
  { id := 4, symbol := "BTC", price := 100, quantity := 5, side := 1,
    otype := 1, timestamp := 0, clientID := "", version := 0 }

/-- Scenario order: `{id=5, BTC, sell, limit, price=99, qty=7}`. -/
def oSell5 : Order :=
  { id := 5, symbol := "BTC", price := 99, quantity := 7, side := 2,
    otype := 1, timestamp := 0, clientID := "", version := 0 }

/-- Scenario order: `{id=6, BTCUSDT, sell, market, qty=5}`. -/
def oMarket6 : Order :=
  { id := 6, symbol := "BTCUSDT", price := 0, quantity := 5, side := 2,
    otype := 2, timestamp := 0, clientID := "", version := 0 }

/-- Book after submitting oBuy1 to a fresh BTCUSDT book (scenario 1 of the
spec: one resting bid level `{100, 10, 1}`). -/
def book1 : HybridOrderBook :=
  (HybridOrderBook.Match (NewHybridOrderBook "BTCUSDT") oBuy1).2

/-- Result and book of matching the crossing sell oSell2 against book1. -/
def crossRes : MatchResult × HybridOrderBook := HybridOrderBook.Match book1 oSell2

/-- Engine holding the post-partial-fill book, with order 1 tracked Pending
(the state ProcessOrder would have recorded for it). -/
def engineAfterFill : MatchingEngine :=
  { orderBooks := [("BTCUSDT", crossRes.2)],
    inputQueues := [("BTCUSDT", [])],
    orderStates := [(1,
      { orderID := 1, symbol := "BTCUSDT", status := .pending,
        filledQuantity := 0, originalQty := 10, createTime := 0 })],
    processed := [1, 2] }

/-- C1: quantity conservation FAILS on the code.  Starting from a book whose
only resting order is buy `{id=1, price=100, qty=10}` (so Q0 = 10) and
matching sell limit `{id=2, price=100, qty=4}` (Qin = 4), the single trade
carries 4, the taker residual is 0, but the book retains only 2 (the level is
decremented once inline and a second time by updatePriceLevel), so
trades + residual book + unfilled takers = 6 ≠ 14 = Q0 + Qin. -/
theorem conservation_violated_by_double_decrement :
    GetTotalQuantity book1.buys + GetTotalQuantity book1.sells = 10 ∧
    oSell2.quantity = 4 ∧
    crossRes.1.TotalFilledQty = 4 ∧
    GetTotalQuantity crossRes.2.buys + GetTotalQuantity crossRes.2.sells = 2 ∧
    oSell2.quantity - crossRes.1.TotalFilledQty = 0 ∧
    crossRes.1.TotalFilledQty
      + (GetTotalQuantity crossRes.2.buys + GetTotalQuantity crossRes.2.sells)
      + (oSell2.quantity - crossRes.1.TotalFilledQty) ≠ 10 + 4 := by
  decide

/-- C2: the price-time-priority scenario DIVERGES on the code.  After resting
buy `{3, 100, 5}` then buy `{4, 100, 5}`, matching sell `{5, 99, 7}` emits a
single trade `{maker=3, qty=7}` — the loop fills min(taker remaining, level
TotalQty) and attributes the whole fill to the one popped maker — instead of
the claimed `{maker=3, qty=5}` followed by `{maker=4, qty=2}`. -/
theorem price_time_priority_scenario_diverges :
    ((HybridOrderBook.Match
        ((HybridOrderBook.Match
            ((HybridOrderBook.Match (NewHybridOrderBook "BTC") oBuy3).2)
            oBuy4).2)
        oSell5).1.trades.map fun t => (t.makerOrderID, t.quantity)) = [(3, 7)] := by
  decide

/-- C3: the crossing-sell scenario emits the claimed single trade
`{maker=1, taker=2, price=100, qty=4}`, but the snapshot then shows
`bids=[{100, 2, 1}]`, not the claimed `[{100, 6, 1}]`: the partial fill
decrements the level aggregate twice (once inline, once in updatePriceLevel). -/
theorem crossing_sell_snapshot_diverges :
    (crossRes.1.trades.map fun t =>
      (t.makerOrderID, t.takerOrderID, t.price, t.quantity)) = [(1, 2, 100, 4)] ∧
    (GetSnapshot crossRes.2 10).bids = [{ price := 100, quantity := 2, count := 1 }] ∧
    (GetSnapshot crossRes.2 10).bids ≠ [{ price := 100, quantity := 6, count := 1 }] := by
  decide

/-- C4: the no-empty-level invariant FAILS on the code.  Matching sell limit
`{id=2, price=100, qty=5}` against the book resting buy `{id=1, 100, 10}`
leaves the bid level at price 100 in the ladder with TotalQty 0: the inline
decrement brings it to 5, updatePriceLevel subtracts the matched 5 again, and
only the inline-decrement path removes levels. -/
theorem zero_qty_level_remains_after_match :
    ((HybridOrderBook.Match book1 oSell2half).2.buys.map fun l =>
      (l.price, l.totalQty)) = [(100, 0)] := by
  decide

/-- C5: cancel correctness FAILS on the code.  In engineAfterFill, order 1
(original qty 10) was partially filled for 4 as a maker, so its remaining
quantity is 6 and its level holds TotalQty 2.  CancelOrder(1) returns true,
sets the state to Cancelled and removes the order from the index, but it
subtracts the ORIGINAL quantity 10 from the level (2 → -8) instead of the
remaining 6, and the negative level stays in the ladder; the second cancel
does return false. -/
theorem cancel_decrements_original_not_remaining :
    (MatchingEngine.CancelOrder engineAfterFill 1 "BTCUSDT").1 = (true, none) ∧
    ((MatchingEngine.CancelOrder engineAfterFill 1 "BTCUSDT").2.GetOrderState 1).map
      OrderState.status = some .cancelled ∧
    ((alistLookup (MatchingEngine.CancelOrder engineAfterFill 1 "BTCUSDT").2.orderBooks
        "BTCUSDT").map fun b => alistLookup b.orderMap 1) = some none ∧
    ((alistLookup (MatchingEngine.CancelOrder engineAfterFill 1 "BTCUSDT").2.orderBooks
        "BTCUSDT").map fun b => b.buys.map fun l => (l.price, l.totalQty)) =
      some [(100, -8)] ∧
    (MatchingEngine.CancelOrder
      (MatchingEngine.CancelOrder engineAfterFill 1 "BTCUSDT").2 1 "BTCUSDT").1 =
      (false, some .orderNotFound) := by
  decide

lemma getEarliest_book (h : HybridOrderBook) (p : Int) :
    ((getEarliestOrderFromLevel h p).2).buys = h.buys ∧
    ((getEarliestOrderFromLevel h p).2).sells = h.sells ∧
    ((getEarliestOrderFromLevel h p).2).orderMap = h.orderMap := by
  unfold getEarliestOrderFromLevel
  split <;> exact ⟨rfl, rfl, rfl⟩

lemma executeTrade_book (h : HybridOrderBook) (t : Order) (l : PriceLevel)
    (q p : Int) :
    ((executeTrade h t l q p).1).buys = h.buys ∧
    ((executeTrade h t l q p).1).sells = h.sells ∧
    ((executeTrade h t l q p).1).orderMap = h.orderMap := by
  unfold executeTrade
  rcases hp : (getEarliestOrderFromLevel h l.price).1 with _ | mo <;>
    simpa [hp] using getEarliest_book h l.price

lemma executeTrade_quantity (h : HybridOrderBook) (t : Order) (l : PriceLevel)
    (q p : Int) : ((executeTrade h t l q p).2).quantity = q := by
  unfold executeTrade
  rcases hp : (getEarliestOrderFromLevel h l.price).1 with _ | mo <;> simp [hp]

lemma removeLevel_mem {r : Bool} {p : Int} {l : PriceLevel} :
    ∀ {ls : List PriceLevel}, l ∈ removeLevel r p ls → l ∈ ls := by
  intro ls
  induction ls with
  | nil => intro hm; simp [removeLevel] at hm
  | cons a as ih =>
    intro hm
    unfold removeLevel at hm
    split at hm
    · rcases List.mem_cons.mp hm with h1 | h1
      · exact h1 ▸ List.mem_cons_self a as
      · exact List.mem_cons_of_mem a (ih h1)
    · exact List.mem_cons_of_mem a hm
    · exact hm

lemma updatePriceLevel_price_orders (l : PriceLevel) (d : Int) :
    (updatePriceLevel l d).price = l.price ∧
    (updatePriceLevel l d).orders = l.orders := by
  unfold updatePriceLevel
  exact ⟨rfl, rfl⟩

lemma matchStepBookBuy_book (h1 : HybridOrderBook) (a : PriceLevel)
    (rest : List PriceLevel) (m : Int) :
    (matchStepBookBuy h1 a rest m).buys = h1.buys ∧
    (matchStepBookBuy h1 a rest m).orderMap = h1.orderMap := by
  by_cases hz : a.totalQty - m = 0 <;> simp [matchStepBookBuy, hz]

lemma matchStepBookSell_book (h1 : HybridOrderBook) (a : PriceLevel)
    (rest : List PriceLevel) (m : Int) :
    (matchStepBookSell h1 a rest m).sells = h1.sells ∧
    (matchStepBookSell h1 a rest m).orderMap = h1.orderMap := by
  by_cases hz : a.totalQty - m = 0 <;> simp [matchStepBookSell, hz]

lemma matchStepBookBuy_sells_mem {h1 : HybridOrderBook} {a : PriceLevel}
    {rest : List PriceLevel} {m : Int} {l : PriceLevel}
    (hl : l ∈ (matchStepBookBuy h1 a rest m).sells) :
    (l.price = a.price ∧ l.orders = a.orders) ∨ l ∈ rest := by
  simp only [matchStepBookBuy] at hl
  by_cases hz : a.totalQty - m = 0
  · rw [if_pos hz] at hl
    rcases List.mem_cons.mp (removeLevel_mem hl) with he | he
    · exact Or.inl ⟨by rw [he], by rw [he]⟩
    · exact Or.inr he
  · rw [if_neg hz] at hl
    rcases List.mem_cons.mp hl with he | he
    · refine Or.inl ⟨?_, ?_⟩
      · rw [he]; exact (updatePriceLevel_price_orders _ _).1
      · rw [he]; exact (updatePriceLevel_price_orders _ _).2
    · exact Or.inr he

lemma matchStepBookSell_buys_mem {h1 : HybridOrderBook} {a : PriceLevel}
    {rest : List PriceLevel} {m : Int} {l : PriceLevel}
    (hl : l ∈ (matchStepBookSell h1 a rest m).buys) :
    (l.price = a.price ∧ l.orders = a.orders) ∨ l ∈ rest := by
  simp only [matchStepBookSell] at hl
  by_cases hz : a.totalQty - m = 0
  · rw [if_pos hz] at hl
    rcases List.mem_cons.mp (removeLevel_mem hl) with he | he
    · exact Or.inl ⟨by rw [he], by rw [he]⟩
    · exact Or.inr he
  · rw [if_neg hz] at hl
    rcases List.mem_cons.mp hl with he | he
    · refine Or.inl ⟨?_, ?_⟩
      · rw [he]; exact (updatePriceLevel_price_orders _ _).1
      · rw [he]; exact (updatePriceLevel_price_orders _ _).2
    · exact Or.inr he

lemma matchBuyLoop_book :
    ∀ (fuel : Nat) (h : HybridOrderBook) (o : Order) (rem : Int),
      ((matchBuyLoop fuel h o rem).2.2).buys = h.buys ∧
      ((matchBuyLoop fuel h o rem).2.2).orderMap = h.orderMap ∧
      ∀ l ∈ ((matchBuyLoop fuel h o rem).2.2).sells,
        ∃ l0 ∈ h.sells, l.price = l0.price ∧ l.orders = l0.orders := by
  intro fuel
  induction fuel with
  | zero =>
    intro h o rem
    exact ⟨rfl, rfl, fun l hl => ⟨l, hl, rfl, rfl⟩⟩
  | succ n ih =>
    intro h o rem
    simp only [matchBuyLoop]
    split
    · exact ⟨rfl, rfl, fun l hl => ⟨l, hl, rfl, rfl⟩⟩
    · rename_i bestAsk rest hs
      by_cases h1 : rem ≤ 0
      · rw [if_pos h1]
        exact ⟨rfl, rfl, fun l hl => ⟨l, hl, rfl, rfl⟩⟩
      · rw [if_neg h1]
        by_cases h2 : o.otype = typeLimit ∧ o.price < bestAsk.price
        · rw [if_pos h2]
          exact ⟨rfl, rfl, fun l hl => ⟨l, hl, rfl, rfl⟩⟩
        · rw [if_neg h2]
          by_cases h3 : min rem bestAsk.totalQty ≤ 0
          · rw [if_pos h3]
            exact ⟨rfl, rfl, fun l hl => ⟨l, hl, rfl, rfl⟩⟩
          · rw [if_neg h3]
            obtain ⟨ihb, ihm, ihs⟩ := ih
              (matchStepBookBuy
                (executeTrade h o bestAsk (min rem bestAsk.totalQty) bestAsk.price).1
                bestAsk rest (min rem bestAsk.totalQty))
              o (rem - min rem bestAsk.totalQty)
            have hstep := matchStepBookBuy_book
              (executeTrade h o bestAsk (min rem bestAsk.totalQty) bestAsk.price).1
              bestAsk rest (min rem bestAsk.totalQty)
            have hexe := executeTrade_book h o bestAsk
              (min rem bestAsk.totalQty) bestAsk.price
            refine ⟨?_, ?_, ?_⟩
            · exact ihb.trans (hstep.1.trans hexe.1)
            · exact ihm.trans (hstep.2.trans hexe.2.2)
            · intro l hl
              obtain ⟨l1, hl1, hp1, ho1⟩ := ihs l hl
              rcases matchStepBookBuy_sells_mem hl1 with ⟨hpa, hoa⟩ | hmem
              · exact ⟨bestAsk, by rw [hs]; exact List.mem_cons_self _ _,
                  hp1.trans hpa, ho1.trans hoa⟩
              · exact ⟨l1, by rw [hs]; exact List.mem_cons_of_mem _ hmem,
                  hp1, ho1⟩

lemma matchSellLoop_book :
    ∀ (fuel : Nat) (h : HybridOrderBook) (o : Order) (rem : Int),
      ((matchSellLoop fuel h o rem).2.2).sells = h.sells ∧
      ((matchSellLoop fuel h o rem).2.2).orderMap = h.orderMap ∧
      ∀ l ∈ ((matchSellLoop fuel h o rem).2.2).buys,
        ∃ l0 ∈ h.buys, l.price = l0.price ∧ l.orders = l0.orders := by
  intro fuel
  induction fuel with
  | zero =>
    intro h o rem
    exact ⟨rfl, rfl, fun l hl => ⟨l, hl, rfl, rfl⟩⟩
  | succ n ih =>
    intro h o rem
    simp only [matchSellLoop]
    split
    · exact ⟨rfl, rfl, fun l hl => ⟨l, hl, rfl, rfl⟩⟩
    · rename_i bestBid rest hs
      by_cases h1 : rem ≤ 0
      · rw [if_pos h1]
        exact ⟨rfl, rfl, fun l hl => ⟨l, hl, rfl, rfl⟩⟩
      · rw [if_neg h1]
        by_cases h2 : o.otype = typeLimit ∧ o.price > bestBid.price
        · rw [if_pos h2]
          exact ⟨rfl, rfl, fun l hl => ⟨l, hl, rfl, rfl⟩⟩
        · rw [if_neg h2]
          by_cases h3 : min rem bestBid.totalQty ≤ 0
          · rw [if_pos h3]
            exact ⟨rfl, rfl, fun l hl => ⟨l, hl, rfl, rfl⟩⟩
          · rw [if_neg h3]
            obtain ⟨ihb, ihm, ihs⟩ := ih
              (matchStepBookSell
                (executeTrade h o bestBid (min rem bestBid.totalQty) bestBid.price).1
                bestBid rest (min rem bestBid.totalQty))
              o (rem - min rem bestBid.totalQty)
            have hstep := matchStepBookSell_book
              (executeTrade h o bestBid (min rem bestBid.totalQty) bestBid.price).1
              bestBid rest (min rem bestBid.totalQty)
            have hexe := executeTrade_book h o bestBid
              (min rem bestBid.totalQty) bestBid.price
            refine ⟨?_, ?_, ?_⟩
            · exact ihb.trans (hstep.1.trans hexe.2.1)
            · exact ihm.trans (hstep.2.trans hexe.2.2)
            · intro l hl
              obtain ⟨l1, hl1, hp1, ho1⟩ := ihs l hl
              rcases matchStepBookSell_buys_mem hl1 with ⟨hpa, hoa⟩ | hmem
              · exact ⟨bestBid, by rw [hs]; exact List.mem_cons_self _ _,
                  hp1.trans hpa, ho1.trans hoa⟩
              · exact ⟨l1, by rw [hs]; exact List.mem_cons_of_mem _ hmem,
                  hp1, ho1⟩

lemma matchBuyLoop_residual :
    ∀ (fuel : Nat) (h : HybridOrderBook) (o : Order) (rem : Int),
      (matchBuyLoop fuel h o rem).2.1
        + ((matchBuyLoop fuel h o rem).1.map Trade.quantity).sum = rem := by
  intro fuel
  induction fuel with
  | zero => intro h o rem; simp [matchBuyLoop]
  | succ n ih =>
    intro h o rem
    simp only [matchBuyLoop]
    split
    · simp
    · rename_i bestAsk rest hs
      by_cases h1 : rem ≤ 0
      · rw [if_pos h1]; simp
      · rw [if_neg h1]
        by_cases h2 : o.otype = typeLimit ∧ o.price < bestAsk.price
        · rw [if_pos h2]; simp
        · rw [if_neg h2]
          by_cases h3 : min rem bestAsk.totalQty ≤ 0
          · rw [if_pos h3]; simp
          · rw [if_neg h3]
            have hrec := ih
              (matchStepBookBuy
                (executeTrade h o bestAsk (min rem bestAsk.totalQty) bestAsk.price).1
                bestAsk rest (min rem bestAsk.totalQty))
              o (rem - min rem bestAsk.totalQty)
            simp only [List.map_cons, List.sum_cons, executeTrade_quantity]
            omega

lemma matchSellLoop_residual :
    ∀ (fuel : Nat) (h : HybridOrderBook) (o : Order) (rem : Int),
      (matchSellLoop fuel h o rem).2.1
        + ((matchSellLoop fuel h o rem).1.map Trade.quantity).sum = rem := by
  intro fuel
  induction fuel with
  | zero => intro h o rem; simp [matchSellLoop]
  | succ n ih =>
    intro h o rem
    simp only [matchSellLoop]
    split
    · simp
    · rename_i bestBid rest hs
      by_cases h1 : rem ≤ 0
      · rw [if_pos h1]; simp
      · rw [if_neg h1]
        by_cases h2 : o.otype = typeLimit ∧ o.price > bestBid.price
        · rw [if_pos h2]; simp
        · rw [if_neg h2]
          by_cases h3 : min rem bestBid.totalQty ≤ 0
          · rw [if_pos h3]; simp
          · rw [if_neg h3]
            have hrec := ih
              (matchStepBookSell
                (executeTrade h o bestBid (min rem bestBid.totalQty) bestBid.price).1
                bestBid rest (min rem bestBid.totalQty))
              o (rem - min rem bestBid.totalQty)
            simp only [List.map_cons, List.sum_cons, executeTrade_quantity]
            omega

/-- C6 amended: the Order embedded in the MatchResult returned by Match is
the incoming taker order unchanged — its quantity field keeps the original
quantity rather than the post-match residual — while the residual computed by
the matching loops equals that original remaining quantity minus the total
quantity of the emitted trades (so it is recoverable from the result, and is
0 for a fully filled taker, but is never written into the embedded order). -/
theorem match_embeds_original_order_and_residual :
    (∀ (b : HybridOrderBook) (o : Order),
      ((HybridOrderBook.Match b o).1).order = o) ∧
    (∀ (fuel : Nat) (h : HybridOrderBook) (o : Order) (rem : Int),
      (matchBuyLoop fuel h o rem).2.1
        = rem - ((matchBuyLoop fuel h o rem).1.map Trade.quantity).sum) ∧
    (∀ (fuel : Nat) (h : HybridOrderBook) (o : Order) (rem : Int),
      (matchSellLoop fuel h o rem).2.1
        = rem - ((matchSellLoop fuel h o rem).1.map Trade.quantity).sum) := by
  refine ⟨fun b o => ?_, fun fuel h o rem => ?_, fun fuel h o rem => ?_⟩
  · simp [HybridOrderBook.Match]
  · have := matchBuyLoop_residual fuel h o rem
    omega
  · have := matchSellLoop_residual fuel h o rem
    omega

/-- C7: duplicate submission is idempotent.  If ProcessOrder accepted an order
(returning ok), then submitting any order with the same id afterwards returns
DuplicateOrder and leaves the engine state (queues, order books, order states,
idempotency set) exactly as it was after the first submission. -/
theorem duplicate_submit_idempotent (e : MatchingEngine) (o o2 : Order)
    (r : MatchResult) (e2 : MatchingEngine) (hid : o2.id = o.id)
    (hok : MatchingEngine.ProcessOrder e o = (.ok r, e2)) :
    MatchingEngine.ProcessOrder e2 o2 = (.error .duplicateOrder, e2) := by
  unfold MatchingEngine.ProcessOrder at hok ⊢
  by_cases hc : e.processed.contains o.id
  · rw [if_pos hc] at hok
    exact absurd (congrArg Prod.fst hok) (by simp)
  · rw [if_neg hc] at hok
    simp only [] at hok
    split at hok
    · exact absurd (congrArg Prod.fst hok) (by simp)
    · split at hok
      · exact absurd (congrArg Prod.fst hok) (by simp)
      · have he2 := congrArg Prod.snd hok
        simp only at he2
        have hproc : e2.processed = o.id :: e.processed := by
          rw [← he2]
        have hcont : e2.processed.contains o2.id = true := by
          rw [hproc, hid]
          simp [List.contains_cons]
        rw [if_pos hcont]

/-- Witness order for C7: `{id=7, BTCUSDT, buy, limit, price=100, qty=1}`. -/
def oOrd7 : Order :=
  { id := 7, symbol := "BTCUSDT", price := 100, quantity := 1, side := 1,
    otype := 1, timestamp := 0, clientID := "", version := 0 }

/-- First submission of oOrd7 to a fresh engine. -/
def firstSubmit : Except EngineError MatchResult × MatchingEngine :=
  MatchingEngine.ProcessOrder (NewMatchingEngine ["BTCUSDT"]) oOrd7

/-- Witness for C7 at a concrete engine and order. -/
theorem duplicate_submit_idempotent_witness :
    MatchingEngine.ProcessOrder firstSubmit.2 oOrd7 =
      (.error .duplicateOrder, firstSubmit.2) :=
  duplicate_submit_idempotent (NewMatchingEngine ["BTCUSDT"]) oOrd7 oOrd7
    { trades := [], order := oOrd7, timestamp := 0 } firstSubmit.2 rfl
    (by rfl)

/-- C8: a market order's residual is never rested.  For every book and every
market taker whose id is neither indexed nor resting on any level, after Match
the id is still absent from the order index and from every level of both
ladders (regardless of how much quantity remained unfilled). -/
theorem market_order_residual_never_rested (b : HybridOrderBook) (o : Order)
    (hm : o.otype = typeMarket)
    (hidx : alistLookup b.orderMap o.id = none)
    (hlv : ∀ l ∈ b.buys ++ b.sells, ∀ x ∈ l.orders, x.id ≠ o.id) :
    alistLookup ((HybridOrderBook.Match b o).2).orderMap o.id = none ∧
    ∀ l ∈ ((HybridOrderBook.Match b o).2).buys ++ ((HybridOrderBook.Match b o).2).sells,
      ∀ x ∈ l.orders, x.id ≠ o.id := by
  have hnl : ¬(o.otype = typeLimit) := by
    rw [hm]
    decide
  unfold HybridOrderBook.Match
  simp only [hnl, and_false, if_false]
  by_cases hside : o.side = sideBuy
  · rw [if_pos hside]
    obtain ⟨hbuys, hmap, hsells⟩ :=
      matchBuyLoop_book o.quantity.toNat b o o.quantity
    rw [matchBuyOrder]
    constructor
    · simpa [hmap] using hidx
    · intro l hl
      rcases List.mem_append.mp hl with hb | hs
      · rw [hbuys] at hb
        exact hlv l (List.mem_append.mpr (Or.inl hb))
      · obtain ⟨l0, hl0, _, ho⟩ := hsells l hs
        intro x hx
        rw [ho] at hx
        exact hlv l0 (List.mem_append.mpr (Or.inr hl0)) x hx
  · rw [if_neg hside]
    obtain ⟨hsells, hmap, hbuys⟩ :=
      matchSellLoop_book o.quantity.toNat b o o.quantity
    rw [matchSellOrder]
    constructor
    · simpa [hmap] using hidx
    · intro l hl
      rcases List.mem_append.mp hl with hb | hs
      · obtain ⟨l0, hl0, _, ho⟩ := hbuys l hb
        intro x hx
        rw [ho] at hx
        exact hlv l0 (List.mem_append.mpr (Or.inl hl0)) x hx
      · rw [hsells] at hs
        exact hlv l (List.mem_append.mpr (Or.inr hs))

/-- Witness for C8: the market sell `{id=6, qty=5}` against the book resting
only buy `{id=1, 100, 10}` is never inserted into a ladder or the index. -/
theorem market_order_residual_never_rested_witness :
    alistLookup ((HybridOrderBook.Match book1 oMarket6).2).orderMap oMarket6.id = none ∧
    ∀ l ∈ ((HybridOrderBook.Match book1 oMarket6).2).buys
        ++ ((HybridOrderBook.Match book1 oMarket6).2).sells,
      ∀ x ∈ l.orders, x.id ≠ oMarket6.id :=
  market_order_residual_never_rested book1 oMarket6 (by decide) (by decide)
    (by decide)

/-- C6 counterexample: matching sell `{id=2, qty=4}` against resting bid
`{id=1, 100, 10}` fills the taker completely (total filled 4 = its quantity),
yet the Order embedded in the returned MatchResult still carries quantity 4,
not the claimed residual 0. -/
theorem residual_order_quantity_not_zeroed :
    crossRes.1.TotalFilledQty = oSell2.quantity ∧
    crossRes.1.order.quantity = 4 ∧
    crossRes.1.order.quantity ≠ 0 := by
  decide

lemma testBit_of_div_eq_one {x t : Nat} (h : x / 2 ^ t = 1) :
    x.testBit t = true := by
  rw [Nat.testBit_to_div_mod, h]
  rfl

lemma top_bit {x t : Nat} (h1 : 2 ^ t ≤ x) (h2 : x < 2 ^ (t + 1)) :
    x.testBit t = true := by
  apply testBit_of_div_eq_one
  have hpos : 0 < 2 ^ t := Nat.pos_pow_of_pos t (by norm_num)
  have hl : 1 ≤ x / 2 ^ t := (Nat.one_le_div_iff hpos).mpr h1
  have hr : x / 2 ^ t < 2 := by
    rw [Nat.div_lt_iff_lt_mul hpos]
    calc x < 2 ^ (t + 1) := h2
    _ = 2 * 2 ^ t := by ring
  omega

lemma testBit_size_pred {x : Nat} (hx : 0 < x) :
    x.testBit (x.size - 1) = true := by
  have hs : 0 < x.size := Nat.size_pos.mpr hx
  apply top_bit
  · exact Nat.lt_size.mp (by omega)
  · rw [show x.size - 1 + 1 = x.size by omega]
    exact Nat.lt_size_self x

lemma lt_size_of_testBit {x j : Nat} (h : x.testBit j = true) : j < x.size :=
  Nat.lt_size.mpr (Nat.testBit_implies_ge h)

lemma orShift_spread {m x c : Nat}
    (hx : ∀ i, x.testBit i = true ↔ ∃ d, d < c ∧ m.testBit (i + d) = true) :
    ∀ i, (x ||| x >>> c).testBit i = true ↔
      ∃ d, d < 2 * c ∧ m.testBit (i + d) = true := by
  intro i
  rw [Nat.testBit_or, Nat.testBit_shiftRight, Bool.or_eq_true, hx i, hx (c + i)]
  constructor
  · rintro (⟨d, hd, hb⟩ | ⟨d, hd, hb⟩)
    · exact ⟨d, by omega, hb⟩
    · refine ⟨c + d, by omega, ?_⟩
      rw [show i + (c + d) = c + i + d by omega]
      exact hb
  · rintro ⟨d, hd, hb⟩
    by_cases hdc : d < c
    · exact Or.inl ⟨d, hdc, hb⟩
    · refine Or.inr ⟨d - c, by omega, ?_⟩
      rw [show c + i + (d - c) = i + d by omega]
      exact hb

lemma spread_base (m : Nat) :
    ∀ i, m.testBit i = true ↔ ∃ d, d < 1 ∧ m.testBit (i + d) = true := by
  intro i
  constructor
  · intro h
    exact ⟨0, Nat.zero_lt_one, by simpa using h⟩
  · rintro ⟨d, hd, hb⟩
    have hd0 : d = 0 := by omega
    simpa [hd0] using hb

lemma two_pow_64_val : (2 : Nat) ^ 64 = 18446744073709551616 := by norm_num

lemma spread_full {m x c : Nat} (hc : m.size ≤ c)
    (hx : ∀ i, x.testBit i = true ↔ ∃ d, d < c ∧ m.testBit (i + d) = true) :
    x = 2 ^ m.size - 1 := by
  apply Nat.eq_of_testBit_eq
  intro i
  rw [Nat.testBit_two_pow_sub_one]
  by_cases hi : i < m.size
  · have hmpos : 0 < m := by
      rcases Nat.eq_zero_or_pos m with h0 | hp
      · rw [h0] at hi
        simp [Nat.size_zero] at hi
      · exact hp
    have htrue := (hx i).mpr ⟨m.size - 1 - i, by omega,
      by
        rw [show i + (m.size - 1 - i) = m.size - 1 by omega]
        exact testBit_size_pred hmpos⟩
    rw [htrue]
    exact (decide_eq_true hi).symm
  · have hfalse : x.testBit i = false := by
      cases hb : x.testBit i
      · rfl
      · obtain ⟨d, hd, hbit⟩ := (hx i).mp hb
        have := lt_size_of_testBit hbit
        omega
    rw [hfalse]
    exact (decide_eq_false hi).symm

lemma nextPowerOfTwo_eq {n : Nat} (h1 : 1 ≤ n) (h2 : n ≤ 2 ^ 63) :
    nextPowerOfTwo n = 2 ^ (n - 1).size := by
  have h63 : (2 : Nat) ^ 63 = 9223372036854775808 := by norm_num
  unfold nextPowerOfTwo
  have hpred : (n + (2 ^ 64 - 1)) % 2 ^ 64 = n - 1 := by
    rw [two_pow_64_val]
    rw [h63] at h2
    omega
  simp only [hpred]
  have hsize : (n - 1).size ≤ 63 := by
    apply Nat.size_le.mpr
    rw [h63]
    rw [h63] at h2
    omega
  have hsp1 := spread_base (n - 1)
  have hsp2 := orShift_spread hsp1
  simp only [show 2 * 1 = 2 from rfl] at hsp2
  have hsp3 := orShift_spread hsp2
  simp only [show 2 * 2 = 4 from rfl] at hsp3
  have hsp4 := orShift_spread hsp3
  simp only [show 2 * 4 = 8 from rfl] at hsp4
  have hsp5 := orShift_spread hsp4
  simp only [show 2 * 8 = 16 from rfl] at hsp5
  have hsp6 := orShift_spread hsp5
  simp only [show 2 * 16 = 32 from rfl] at hsp6
  have hsp7 := orShift_spread hsp6
  simp only [show 2 * 32 = 64 from rfl] at hsp7
  have hcas := spread_full (by omega) hsp7
  rw [hcas]
  have hp1 : 1 ≤ (2 : Nat) ^ (n - 1).size := Nat.one_le_two_pow
  rw [show 2 ^ (n - 1).size - 1 + 1 = 2 ^ (n - 1).size by omega]
  apply Nat.mod_eq_of_lt
  calc (2 : Nat) ^ (n - 1).size ≤ 2 ^ 63 :=
    Nat.pow_le_pow_right (by norm_num) hsize
  _ < 2 ^ 64 := by norm_num

lemma pow_of_two_of_land_self_pred {s : Nat} (h1 : 1 ≤ s)
    (hz : s &&& (s - 1) = 0) : s = 2 ^ (s.size - 1) := by
  have hs : 0 < s.size := Nat.size_pos.mpr h1
  by_contra hne
  have hlow : 2 ^ (s.size - 1) ≤ s := Nat.lt_size.mp (by omega)
  have hup : s < 2 ^ s.size := Nat.lt_size_self s
  have hlt : 2 ^ (s.size - 1) < s := Nat.lt_of_le_of_ne hlow fun he => hne he.symm
  have hb1 : s.testBit (s.size - 1) = true := testBit_size_pred h1
  have hb2 : (s - 1).testBit (s.size - 1) = true := by
    apply top_bit
    · exact Nat.le_sub_one_of_lt hlt
    · rw [show s.size - 1 + 1 = s.size by omega]
      exact lt_of_le_of_lt (Nat.sub_le s 1) hup
  have hb : (s &&& (s - 1)).testBit (s.size - 1) = true := by
    rw [Nat.testBit_and, hb1, hb2]
    rfl
  rw [hz, Nat.zero_testBit] at hb
  exact Bool.false_ne_true hb

/-- C9 counterexample: the claim fails at requested size 0.  The constructor
computes `0 & (0-1) == 0` in uint64 arithmetic, keeps the size, and returns a
ring of Capacity() = 0, which is not a power of two. -/
theorem ringbuffer_capacity_zero_not_power_of_two :
    newRingBufferCapacity 0 = 0 ∧ ¬ IsPowerOfTwo (newRingBufferCapacity 0) := by
  have h0 : newRingBufferCapacity 0 = 0 := by decide
  refine ⟨h0, ?_⟩
  rintro ⟨k, hk⟩
  rw [h0] at hk
  have := Nat.one_le_two_pow (n := k)
  omega

/-- C9 amended: for every requested size in [1, 2^63], the constructed
capacity is a power of two no smaller than the requested size; and Push (in
its sequential projection) returns false exactly when the buffer already
holds Capacity() items, i.e. head - tail >= capacity. -/
theorem ringbuffer_capacity_power_of_two_and_push_full :
    (∀ size : Nat, 1 ≤ size → size ≤ 2 ^ 63 →
      IsPowerOfTwo (newRingBufferCapacity size) ∧
      size ≤ newRingBufferCapacity size) ∧
    (∀ q : RingBuffer, q.tail ≤ q.head → q.head - q.tail ≤ q.capacity →
      ∀ o : Order, ((q.Push o).1 = false ↔ q.head - q.tail = q.capacity)) := by
  constructor
  · intro size h1 h2
    unfold newRingBufferCapacity
    have hpred : (size + (2 ^ 64 - 1)) % 2 ^ 64 = size - 1 := by
      have h63 : (2 : Nat) ^ 63 = 9223372036854775808 := by norm_num
      rw [two_pow_64_val]
      rw [h63] at h2
      omega
    rw [hpred]
    by_cases hz : size &&& (size - 1) ≠ 0
    · rw [if_pos hz]
      rw [nextPowerOfTwo_eq h1 h2]
      refine ⟨⟨(size - 1).size, rfl⟩, ?_⟩
      have hx := Nat.lt_size_self (size - 1)
      have : size - 1 + 1 ≤ 2 ^ (size - 1).size := hx
      rwa [Nat.sub_add_cancel h1] at this
    · rw [if_neg hz]
      have hz0 : size &&& (size - 1) = 0 := not_ne_iff.mp hz
      exact ⟨⟨size.size - 1, pow_of_two_of_land_self_pred h1 hz0⟩, le_refl size⟩
  · intro q ht hc o
    unfold RingBuffer.Push
    by_cases hfull : q.capacity ≤ q.head - q.tail
    · rw [if_pos hfull]
      simp only
      constructor
      · intro _
        omega
      · intro _
        trivial
    · rw [if_neg hfull]
      simp only
      constructor
      · intro hcontra
        exact absurd hcontra (by simp)
      · intro heq
        omega

/-- Witness for C9: size 1000 (the per-price FIFO request) rounds up to the
power of two 1024 >= 1000, and a concrete full ring rejects a push. -/
theorem ringbuffer_capacity_power_of_two_and_push_full_witness :
    (IsPowerOfTwo (newRingBufferCapacity 1000) ∧
      1000 ≤ newRingBufferCapacity 1000) ∧
    ((RingBuffer.Push { head := 8, tail := 0, capacity := 8, items := [] } oOrd7).1
      = false ↔ (8 : Nat) - 0 = 8) :=
  ⟨ringbuffer_capacity_power_of_two_and_push_full.1 1000 (by norm_num)
      (by norm_num),
   ringbuffer_capacity_power_of_two_and_push_full.2
      { head := 8, tail := 0, capacity := 8, items := [] } (by decide)
      (by decide) oOrd7⟩

/-- C10: on an empty buy (resp. sell) ladder GetBestBid (resp. GetBestAsk)
returns price 0 and quantity 0, and GetSpread returns 0 whenever either
side's best price is 0. -/
theorem empty_side_queries_return_zero (h : HybridOrderBook) :
    (h.buys = [] → GetBestBid h = (0, 0)) ∧
    (h.sells = [] → GetBestAsk h = (0, 0)) ∧
    ((GetBestBid h).1 = 0 ∨ (GetBestAsk h).1 = 0 → GetSpread h = 0) := by
  refine ⟨fun hb => ?_, fun hs => ?_, fun hz => ?_⟩
  · simp [GetBestBid, hb]
  · simp [GetBestAsk, hs]
  · simp only [GetSpread]
    rw [if_pos hz]

/-- Witness for C10 at the concrete empty book. -/
theorem empty_side_queries_return_zero_witness :
    GetBestBid (NewHybridOrderBook "BTCUSDT") = (0, 0) ∧
    GetBestAsk (NewHybridOrderBook "BTCUSDT") = (0, 0) ∧
    GetSpread (NewHybridOrderBook "BTCUSDT") = 0 :=
  ⟨(empty_side_queries_return_zero _).1 rfl,
   (empty_side_queries_return_zero _).2.1 rfl,
   (empty_side_queries_return_zero _).2.2 (Or.inl (by decide))⟩

end Tradeengin
